import Mathlib

/-!
Verification of the Mira voice-session relay (`backend/routers/voice.py`,
`backend/services/firestore_service.py`, `backend/config.py`).

The Python code is shallowly embedded: each relevant operation becomes an
executable Lean definition over explicit state, and the specification's
claims are settled as theorems about those definitions.  Roles and plans
are Python strings ("user"/"assistant", "free"/"pro"), times and minute
counts are rationals.
-/

namespace Mira

/-! ## Transcript consolidation (voice.py lines 375-389)

`transcript_turns` is an ordered list of `(role, text)` pairs.  The code:

    consolidated = []
    for role, text in transcript_turns:
        if consolidated and consolidated[-1][0] == role:
            consolidated[-1] = (role, consolidated[-1][1] + text)
        else:
            consolidated.append((role, text))

followed by the save loop, which skips whitespace-only texts:

    for role, text in consolidated:
        if text.strip():
            await firestore.add_message(conversation_id, role, text)
-/

/-- One step of the Python `for` loop: `consolidated` is the accumulator,
`f` the next `(role, text)` fragment. -/
def consolidateStep (acc : List (String × String)) (f : String × String) :
    List (String × String) :=
  match acc.getLast? with
  | some (r, t) => if r = f.1 then acc.dropLast ++ [(r, t ++ f.2)] else acc ++ [f]
  | none => [f]

/-- The consolidation loop of voice.py lines 377-382, as a left fold. -/
def consolidate (transcript_turns : List (String × String)) :
    List (String × String) :=
  transcript_turns.foldl consolidateStep []

/-- Recursive reformulation of `consolidate`, convenient for proofs;
`consolidate_eq_rec` shows it computes the same list. -/
def consolidateRec : List (String × String) → List (String × String)
  | [] => []
  | [f] => [f]
  | f :: g :: rest =>
    if f.1 = g.1 then consolidateRec ((f.1, f.2 ++ g.2) :: rest)
    else f :: consolidateRec (g :: rest)
termination_by l => l.length
decreasing_by all_goals simp

theorem foldl_consolidateStep_concat (l : List (String × String)) :
    ∀ (r : String) (t : String) (acc : List (String × String)),
      l.foldl consolidateStep (acc ++ [(r, t)]) =
        acc ++ consolidateRec ((r, t) :: l) := by
  induction l with
  | nil => intro r t acc; simp [consolidateRec]
  | cons f rest ih =>
    intro r t acc
    rw [List.foldl_cons]
    by_cases h : r = f.1
    · have hstep : consolidateStep (acc ++ [(r, t)]) f =
          acc ++ [(r, t ++ f.2)] := by
        simp [consolidateStep, List.getLast?_concat, h, List.dropLast_concat]
      rw [hstep, ih r (t ++ f.2) acc]
      have : consolidateRec ((r, t) :: f :: rest) =
          consolidateRec ((r, t ++ f.2) :: rest) := by
        simp [consolidateRec, h]
      rw [this]

    · have hstep : consolidateStep (acc ++ [(r, t)]) f =
          (acc ++ [(r, t)]) ++ [f] := by
        simp [consolidateStep, List.getLast?_concat, h]
      have hf : (f.1, f.2) = f := rfl
      rw [hstep]
      have := ih f.1 f.2 (acc ++ [(r, t)])
      rw [hf] at this
      rw [this]
      have : consolidateRec ((r, t) :: f :: rest) =
          (r, t) :: consolidateRec (f :: rest) := by
        simp [consolidateRec, h]
      rw [this]
      simp

/-- The source-shaped fold and the recursive reformulation agree. -/
theorem consolidate_eq_rec (l : List (String × String)) :
    consolidate l = consolidateRec l := by
  cases l with
  | nil => simp [consolidate, consolidateRec]
  | cons f rest =>
    have hf : (f.1, f.2) = f := rfl
    have := foldl_consolidateStep_concat rest f.1 f.2 []
    rw [hf] at this
    simpa [consolidate, consolidateStep] using this

/-- Maximal runs of adjacent fragments sharing one role, in arrival order
(specification-side decomposition used to state what consolidation merges). -/
def sameRoleRuns : List (String × String) → List (List (String × String))
  | [] => []
  | [f] => [[f]]
  | f :: g :: rest =>
    if f.1 = g.1 then
      match sameRoleRuns (g :: rest) with
      | run :: out => (f :: run) :: out
      | [] => [[f]]
    else [f] :: sameRoleRuns (g :: rest)

/-- Merge one run into a single turn: first fragment's role, texts
concatenated in order. -/
def mergeRun : List (String × String) → String × String
  | [] => ("", "")
  | [f] => f
  | f :: g :: rest => (f.1, f.2 ++ (mergeRun (g :: rest)).2)

theorem consolidateRec_cons_head (l : List (String × String)) :
    ∀ f : String × String, ∃ s out, consolidateRec (f :: l) = (f.1, s) :: out := by
  induction l with
  | nil => intro f; exact ⟨f.2, [], by simp [consolidateRec]⟩
  | cons g rest ih =>
    intro f
    by_cases h : f.1 = g.1
    · obtain ⟨s, out, hs⟩ := ih (f.1, f.2 ++ g.2)
      refine ⟨s, out, ?_⟩
      have e : consolidateRec (f :: g :: rest) =
          consolidateRec ((f.1, f.2 ++ g.2) :: rest) := by
        simp [consolidateRec, h]
      rw [e]; exact hs
    · exact ⟨f.2, consolidateRec (g :: rest), by simp [consolidateRec, h]⟩

theorem consolidateRec_push (rest : List (String × String)) :
    ∀ (r a b s : String) (out : List (String × String)),
      consolidateRec ((r, b) :: rest) = (r, s) :: out →
      consolidateRec ((r, a ++ b) :: rest) = (r, a ++ s) :: out := by
  induction rest with
  | nil =>
    intro r a b s out h
    simp [consolidateRec] at h
    obtain ⟨hb, hout⟩ := h
    subst hb; subst hout
    simp [consolidateRec]
  | cons g rest' ih =>
    intro r a b s out h
    by_cases hr : r = g.1
    · have e1 : consolidateRec ((r, b) :: g :: rest') =
          consolidateRec ((r, b ++ g.2) :: rest') := by
        simp [consolidateRec, hr]
      have e2 : consolidateRec ((r, a ++ b) :: g :: rest') =
          consolidateRec ((r, (a ++ b) ++ g.2) :: rest') := by
        simp [consolidateRec, hr]
      rw [e1] at h
      rw [e2, String.append_assoc]
      exact ih r a (b ++ g.2) s out h
    · have e1 : consolidateRec ((r, b) :: g :: rest') =
          (r, b) :: consolidateRec (g :: rest') := by
        simp [consolidateRec, hr]
      rw [e1] at h
      obtain ⟨hb, hout⟩ := List.cons.inj h
      have e2 : consolidateRec ((r, a ++ b) :: g :: rest') =
          (r, a ++ b) :: consolidateRec (g :: rest') := by
        simp [consolidateRec, hr]
      rw [e2, hout]
      have : b = s := by simpa using congrArg Prod.snd hb
      rw [this]

theorem consolidateRec_cons_chain (l : List (String × String)) :
    ∀ f, (consolidateRec (f :: l)).Chain' (fun x y => x.1 ≠ y.1) := by
  induction l with
  | nil => intro f; simp [consolidateRec]
  | cons g rest ih =>
    intro f
    by_cases h : f.1 = g.1
    · have e : consolidateRec (f :: g :: rest) =
          consolidateRec ((f.1, f.2 ++ g.2) :: rest) := by
        simp [consolidateRec, h]
      rw [e]; exact ih (f.1, f.2 ++ g.2)
    · have e : consolidateRec (f :: g :: rest) =
          f :: consolidateRec (g :: rest) := by
        simp [consolidateRec, h]
      rw [e, List.chain'_cons']
      refine ⟨?_, ih g⟩
      intro y hy
      obtain ⟨s, out, hs⟩ := consolidateRec_cons_head rest g
      rw [hs] at hy
      simp at hy
      rw [← hy]
      exact h

theorem consolidateRec_of_chain (l : List (String × String))
    (h : l.Chain' (fun x y => x.1 ≠ y.1)) : consolidateRec l = l := by
  induction l with
  | nil => simp [consolidateRec]
  | cons f rest ih =>
    cases rest with
    | nil => simp [consolidateRec]
    | cons g rest' =>
      rw [List.chain'_cons] at h
      have e : consolidateRec (f :: g :: rest') =
          f :: consolidateRec (g :: rest') := by
        simp [consolidateRec, h.1]
      rw [e, ih h.2]

theorem sameRoleRuns_cons_head (l : List (String × String)) :
    ∀ f, ∃ t out, sameRoleRuns (f :: l) = (f :: t) :: out := by
  induction l with
  | nil => intro f; exact ⟨[], [], rfl⟩
  | cons g rest ih =>
    intro f
    by_cases h : f.1 = g.1
    · obtain ⟨t, out, ht⟩ := ih g
      exact ⟨g :: t, out, by simp [sameRoleRuns, h, ht]⟩
    · exact ⟨[], sameRoleRuns (g :: rest), by simp [sameRoleRuns, h]⟩

theorem sameRoleRuns_cons_flatten (l : List (String × String)) :
    ∀ f, (sameRoleRuns (f :: l)).flatten = f :: l := by
  induction l with
  | nil => intro f; simp [sameRoleRuns]
  | cons g rest ih =>
    intro f
    by_cases h : f.1 = g.1
    · obtain ⟨t, out, ht⟩ := sameRoleRuns_cons_head rest g
      have e : sameRoleRuns (f :: g :: rest) = (f :: g :: t) :: out := by
        simp [sameRoleRuns, h, ht]
      have hj := ih g
      rw [ht, List.flatten_cons] at hj
      rw [e, List.flatten_cons, List.cons_append, hj]
    · have e : sameRoleRuns (f :: g :: rest) =
          [f] :: sameRoleRuns (g :: rest) := by
        simp [sameRoleRuns, h]
      rw [e, List.flatten_cons]
      simp [ih g]

theorem sameRoleRuns_runs_same_role (l : List (String × String)) :
    ∀ f, ∀ run ∈ sameRoleRuns (f :: l),
      run ≠ [] ∧ run.Chain' (fun x y => x.1 = y.1) := by
  induction l with
  | nil =>
    intro f run hr
    simp [sameRoleRuns] at hr
    rw [hr]
    exact ⟨by simp, by simp⟩
  | cons g rest ih =>
    intro f run hr
    by_cases h : f.1 = g.1
    · obtain ⟨t, out, ht⟩ := sameRoleRuns_cons_head rest g
      have e : sameRoleRuns (f :: g :: rest) = (f :: g :: t) :: out := by
        simp [sameRoleRuns, h, ht]
      rw [e] at hr
      rcases List.mem_cons.mp hr with h1 | h2
      · rw [h1]
        refine ⟨by simp, ?_⟩
        rw [List.chain'_cons]
        refine ⟨h, ?_⟩
        exact (ih g (g :: t) (by rw [ht]; exact List.mem_cons_self _ _)).2
      · exact ih g run (by rw [ht]; exact List.mem_cons_of_mem _ h2)
    · have e : sameRoleRuns (f :: g :: rest) =
          [f] :: sameRoleRuns (g :: rest) := by
        simp [sameRoleRuns, h]
      rw [e] at hr
      rcases List.mem_cons.mp hr with h1 | h2
      · rw [h1]; exact ⟨by simp, by simp⟩
      · exact ih g run h2

theorem consolidateRec_eq_runs_cons (l : List (String × String)) :
    ∀ f, consolidateRec (f :: l) = (sameRoleRuns (f :: l)).map mergeRun := by
  induction l with
  | nil => intro f; simp [consolidateRec, sameRoleRuns, mergeRun]
  | cons g rest ih =>
    intro f
    by_cases h : f.1 = g.1
    · have e1 : consolidateRec (f :: g :: rest) =
          consolidateRec ((f.1, f.2 ++ g.2) :: rest) := by
        simp [consolidateRec, h]
      obtain ⟨s, out1, hs⟩ := consolidateRec_cons_head rest g
      have hs' : consolidateRec ((g.1, g.2) :: rest) = (g.1, s) :: out1 := by
        simpa using hs
      have e2 : consolidateRec ((g.1, f.2 ++ g.2) :: rest) =
          (g.1, f.2 ++ s) :: out1 :=
        consolidateRec_push rest g.1 f.2 g.2 s out1 hs'
      obtain ⟨t, out2, ht⟩ := sameRoleRuns_cons_head rest g
      have e3 : sameRoleRuns (f :: g :: rest) = (f :: g :: t) :: out2 := by
        simp [sameRoleRuns, h, ht]
      have ihg := ih g
      rw [hs, ht, List.map_cons] at ihg
      obtain ⟨hm1, hm2⟩ := List.cons.inj ihg
      rw [e1, show ((f.1 : String), f.2 ++ g.2) = (g.1, f.2 ++ g.2) from by rw [h],
        e2, e3, List.map_cons]
      have e4 : mergeRun (f :: g :: t) = (f.1, f.2 ++ (mergeRun (g :: t)).2) := by
        simp [mergeRun]
      rw [e4, ← hm1, ← hm2, h]
    · have e1 : consolidateRec (f :: g :: rest) =
          f :: consolidateRec (g :: rest) := by
        simp [consolidateRec, h]
      have e3 : sameRoleRuns (f :: g :: rest) =
          [f] :: sameRoleRuns (g :: rest) := by
        simp [sameRoleRuns, h]
      rw [e1, e3, List.map_cons, ih g]
      simp [mergeRun]

/-- Python truthiness of `text.strip()`: the stripped string is non-empty
exactly when some character of `text` is not whitespace.  `isBlank` is true
when every character is whitespace (in particular for the empty string). -/
def isBlank (text : String) : Bool := text.data.all Char.isWhitespace

/-- The save loop of voice.py lines 387-389: each consolidated turn is
persisted only when `text.strip()` is truthy. -/
def savedMessages (transcript_turns : List (String × String)) :
    List (String × String) :=
  (consolidate transcript_turns).filter (fun f => !(isBlank f.2))

/-- Claim C4: the consolidation loop merges exactly the maximal runs of
adjacent same-role fragments, one turn per run, role taken from the run and
texts concatenated, preserving arrival order: `consolidate` equals mapping
`mergeRun` over the maximal-run decomposition `sameRoleRuns`, whose runs
flatten back to the input, are nonempty and role-constant, and whose merged
turns never repeat a role in adjacent positions (maximality).  The spec's
concrete scenario evaluates as stated. -/
theorem claim_C4_consolidate_merges_maximal_runs :
    (∀ l : List (String × String),
        consolidate l = (sameRoleRuns l).map mergeRun ∧
        (sameRoleRuns l).flatten = l ∧
        (∀ run ∈ sameRoleRuns l, run ≠ [] ∧
            run.Chain' (fun x y => x.1 = y.1)) ∧
        ((sameRoleRuns l).map mergeRun).Chain' (fun x y => x.1 ≠ y.1)) ∧
      consolidate [("user", "I feel stuck"), ("user", " at work"),
          ("assistant", "Tell me more")] =
        [("user", "I feel stuck at work"), ("assistant", "Tell me more")] := by
  constructor
  · intro l
    have heq : consolidate l = (sameRoleRuns l).map mergeRun := by
      rw [consolidate_eq_rec]
      cases l with
      | nil => simp [consolidateRec, sameRoleRuns]
      | cons f rest => exact consolidateRec_eq_runs_cons rest f
    refine ⟨heq, ?_, ?_, ?_⟩
    · cases l with
      | nil => simp [sameRoleRuns]
      | cons f rest => exact sameRoleRuns_cons_flatten rest f
    · cases l with
      | nil => simp [sameRoleRuns]
      | cons f rest => exact sameRoleRuns_runs_same_role rest f
    · rw [← heq, consolidate_eq_rec]
      cases l with
      | nil => simp [consolidateRec]
      | cons f rest => exact consolidateRec_cons_chain rest f
  · decide

/-- Claim C4 witness: the general part applied to a concrete one-fragment
transcript. -/
theorem claim_C4_witness :
    ([(("user" : String), ("x" : String))] ≠ ([] : List (String × String))) ∧
      List.Chain' (fun x y => (x : String × String).1 = y.1)
        [(("user" : String), ("x" : String))] :=
  (claim_C4_consolidate_merges_maximal_runs.1 [("user", "x")]).2.2.1
    [("user", "x")] (by decide)

/-- Claim C6: consolidation is idempotent, and its output never has two
adjacent turns with the same role. -/
theorem claim_C6_consolidate_idempotent_no_adjacent_roles
    (l : List (String × String)) :
    consolidate (consolidate l) = consolidate l ∧
      (consolidate l).Chain' (fun x y => x.1 ≠ y.1) := by
  have hc : (consolidate l).Chain' (fun x y => x.1 ≠ y.1) := by
    rw [consolidate_eq_rec]
    cases l with
    | nil => simp [consolidateRec]
    | cons f rest => exact consolidateRec_cons_chain rest f
  refine ⟨?_, hc⟩
  rw [consolidate_eq_rec (consolidate l)]
  exact consolidateRec_of_chain _ hc

/-- The spec's counterexample input for claim C5: two user fragments
separated by a whitespace-only assistant fragment. -/
def c5Input : List (String × String) :=
  [("user", "a"), ("assistant", " "), ("user", "b")]

/-- Claim C5 counterexample: the code drops whitespace-only texts AFTER the
merging step (at save time), not before.  On `c5Input` the persisted turns
are two separate same-role user messages, while merging after dropping
whitespace-only fragments first would produce the single merged turn
`("user", "ab")`; the two disagree (under either reading of
"consolidating": the bare merge loop, or the merge-then-save pipeline). -/
theorem claim_C5_counterexample :
    savedMessages c5Input = [("user", "a"), ("user", "b")] ∧
      consolidate (c5Input.filter (fun f => !(isBlank f.2))) = [("user", "ab")] ∧
      savedMessages c5Input ≠
        consolidate (c5Input.filter (fun f => !(isBlank f.2))) ∧
      consolidate c5Input ≠
        consolidate (c5Input.filter (fun f => !(isBlank f.2))) := by
  exact ⟨by decide, by decide, by decide, by decide⟩

/-- Claim C5 (amended): fragments with empty or whitespace-only text are NOT
dropped before merging; instead, after the adjacent-same-role merge, a
consolidated turn whose text is entirely whitespace is dropped when the
turns are persisted.  Persisted turns are a subsequence of the consolidated
turns and all have non-blank text; consequently two same-role fragments
separated only by a whitespace-only fragment of the other role are persisted
as two separate turns, not merged into one. -/
theorem claim_C5_blank_turns_dropped_at_save :
    (∀ l : List (String × String),
        List.Sublist (savedMessages l) (consolidate l) ∧
        ∀ f ∈ savedMessages l, isBlank f.2 = false) ∧
      savedMessages c5Input = [("user", "a"), ("user", "b")] := by
  constructor
  · intro l
    constructor
    · exact List.filter_sublist _
    · intro f hf
      have := List.of_mem_filter hf
      simpa using this
  · decide

/-- Claim C5 witness: the amended statement applied at `c5Input` and its
first persisted turn. -/
theorem claim_C5_witness :
    isBlank (("user", "a") : String × String).2 = false :=
  (claim_C5_blank_turns_dropped_at_save.1 c5Input).2 ("user", "a") (by decide)

/-! ## Monthly usage accounting (firestore_service.py lines 339-374) -/

/-- One element of the `sessions` list: built at lines 346-350 with the
session id, the rounded duration and an ISO timestamp. -/
structure SessionEntry where
  sessionId : String
  duration : ℚ
  date : String
deriving DecidableEq

/-- The per-user `voice_usage` document: running monthly total, ordered
session entries, and the "YYYY-MM" month key. -/
structure UsageRecord where
  monthlyMinutes : ℚ
  sessions : List SessionEntry
  month : String
deriving DecidableEq

/-- `update_voice_usage` (firestore_service.py lines 339-374).  `stored` is
the current snapshot (`none` when the document does not exist),
`current_month` the "YYYY-MM" key at call time, `session_entry` the entry
built at lines 346-350.  A stored record from a different month, or a
missing record, is replaced by a fresh record holding only this session;
otherwise the duration is added to the total and the entry appended. -/
def update_voice_usage (stored : Option UsageRecord) (current_month : String)
    (duration_minutes : ℚ) (session_entry : SessionEntry) : UsageRecord :=
  match stored with
  | some data =>
    if data.month ≠ current_month then
      ⟨duration_minutes, [session_entry], current_month⟩
    else
      ⟨data.monthlyMinutes + duration_minutes,
        data.sessions ++ [session_entry], data.month⟩
  | none => ⟨duration_minutes, [session_entry], current_month⟩

/-- Claim C3: a stored record whose month differs from the current month (or
a missing record) is replaced by a record with this session's duration as
the total and a single-entry list; a same-month record gets the duration
added and the entry appended.  Hence the total is non-decreasing within a
month (for the non-negative durations produced by the clock) and equals the
latest session's duration alone right after a rollover. -/
theorem claim_C3_update_voice_usage_monthly (stored : Option UsageRecord)
    (current_month : String) (d : ℚ) (entry : SessionEntry) :
    ((stored = none ∨ ∃ r, stored = some r ∧ r.month ≠ current_month) →
        update_voice_usage stored current_month d entry =
          ⟨d, [entry], current_month⟩) ∧
      (∀ r, stored = some r → r.month = current_month →
        update_voice_usage stored current_month d entry =
          ⟨r.monthlyMinutes + d, r.sessions ++ [entry], current_month⟩) ∧
      (0 ≤ d → ∀ r, stored = some r →
        r.monthlyMinutes ≤
            (update_voice_usage stored current_month d entry).monthlyMinutes ∨
          (update_voice_usage stored current_month d entry).monthlyMinutes
            = d) := by
  refine ⟨?_, ?_, ?_⟩
  · rintro (h | ⟨r, hr, hm⟩)
    · rw [h]; rfl
    · rw [hr]; simp [update_voice_usage, hm]
  · intro r hr hm
    rw [hr]
    simp [update_voice_usage, hm]
  · intro hd r hr
    rw [hr]
    by_cases hm : r.month = current_month
    · left; simp [update_voice_usage, hm]; linarith
    · right; simp [update_voice_usage, hm]

/-- Claim C3 witness: a concrete same-month update adds the duration and a
concrete rollover replaces the total. -/
theorem claim_C3_witness :
    update_voice_usage (some ⟨3, [], "2026-10"⟩) "2026-10" 2
        ⟨"conv1", 2, "2026-10-12"⟩ =
      ⟨3 + 2, [⟨"conv1", 2, "2026-10-12"⟩], "2026-10"⟩ ∧
    update_voice_usage (some ⟨3, [], "2026-09"⟩) "2026-10" 2
        ⟨"conv1", 2, "2026-10-12"⟩ =
      ⟨2, [⟨"conv1", 2, "2026-10-12"⟩], "2026-10"⟩ := by
  constructor
  · exact (claim_C3_update_voice_usage_monthly (some ⟨3, [], "2026-10"⟩)
      "2026-10" 2 ⟨"conv1", 2, "2026-10-12"⟩).2.1 ⟨3, [], "2026-10"⟩ rfl rfl
  · exact (claim_C3_update_voice_usage_monthly (some ⟨3, [], "2026-09"⟩)
      "2026-10" 2 ⟨"conv1", 2, "2026-10-12"⟩).1
      (Or.inr ⟨⟨3, [], "2026-09"⟩, rfl, by decide⟩)

/-! ## Session start: entitlement gate, ownership check, upstream connect and
setup handshake (voice.py lines 86-213, config.py lines 34-36) -/

def FREE_VOICE_TRIAL_MINUTES : ℚ := 5
def VOICE_MONTHLY_MINUTES_LIMIT : ℚ := 60
def VOICE_SESSION_MAX_MINUTES : ℚ := 30

/-- The bound passed to `asyncio.wait_for` at voice.py line 202. -/
def SETUP_TIMEOUT_SECONDS : ℚ := 10

def freeTrialUsedMsg : String :=
  "You've used your free voice session. Upgrade to Pro for unlimited voice coaching."

def monthlyLimitMsg : String :=
  "Monthly voice limit reached (60 minutes). Resets next month."

def setupTimeoutMsg : String := "Voice service timed out during setup"

def connectFailMsg (errName : String) : String :=
  "Failed to connect to voice service: " ++ errName

/-- Client-visible sends, persistence writes and connection actions of the
session-start phase, in program order. -/
inductive SEvent
  | sendError (message : String)
  | closeClient
  | markTrialUsed
  | createConversation (userId : String)
  | connectAttempt
  | sendSetup
  | closeUpstream
deriving DecidableEq

def isSendError : SEvent → Bool
  | .sendError _ => true
  | _ => false

/-- Result of the access check, voice.py lines 100-128: events emitted,
whether the session may continue, and the trial flag afterwards. -/
structure GateResult where
  events : List SEvent
  allowed : Bool
  trialUsedAfter : Bool
deriving DecidableEq

/-- Voice access check (voice.py lines 100-122).  Free plan: denied when the
trial flag is set, otherwise the flag is set immediately.  Any other plan:
denied when the accumulated monthly minutes reach the limit. -/
def entitlementGate (plan : String) (trialUsed : Bool) (monthlyMinutes : ℚ) :
    GateResult :=
  if plan = "free" then
    if trialUsed then
      ⟨[.sendError freeTrialUsedMsg, .closeClient], false, trialUsed⟩
    else
      ⟨[.markTrialUsed], true, true⟩
  else
    if monthlyMinutes ≥ VOICE_MONTHLY_MINUTES_LIMIT then
      ⟨[.sendError monthlyLimitMsg, .closeClient], false, trialUsed⟩
    else
      ⟨[], true, trialUsed⟩

/-- Session time limit by plan (voice.py lines 124-128). -/
def session_max_minutes (plan : String) : ℚ :=
  if plan = "free" then FREE_VOICE_TRIAL_MINUTES else VOICE_SESSION_MAX_MINUTES

/-- What `await asyncio.wait_for(gemini_ws.recv(), timeout=10)` at voice.py
line 202 can produce: the first upstream frame (with or without a
"setupComplete" key), a timeout, or a `ConnectionClosed` raised by `recv`
while waiting (only `asyncio.TimeoutError` is caught at line 208). -/
inductive SetupRecv
  | message (hasSetupComplete : Bool)
  | timeout
  | connClosed
deriving DecidableEq

/-- Inputs the session-start phase reads: the authenticated user's plan and
id, the stored trial flag and monthly usage, the conversation document, and
the behaviour of the upstream connect and first reply. -/
structure StartEnv where
  plan : String
  trialUsed : Bool
  monthlyMinutes : ℚ
  convExists : Bool
  convOwner : Option String
  uid : String
  connectOk : Bool
  connectErrName : String
  firstReply : SetupRecv
deriving DecidableEq

inductive StartOutcome
  /-- Returned before the relay phase after a graceful error frame + close. -/
  | denied
  /-- An uncaught exception propagated out of `voice_session`: no error
  frame is sent by the handler and the relay/persistence phase never runs. -/
  | crashed
  /-- Reached the relay phase (voice.py line 215) with this time limit. -/
  | proceed (maxMinutes : ℚ)
deriving DecidableEq

structure StartResult where
  events : List SEvent
  outcome : StartOutcome
  trialUsedAfter : Bool
deriving DecidableEq

/-- Ownership test of voice.py line 161: reject only when the conversation
exists and its stored owner is non-null and differs from the user. -/
def ownerForbidden (env : StartEnv) : Bool :=
  env.convExists && (match env.convOwner with
    | some o => o != env.uid
    | none => false)

/-- Steps 2-6 of `voice_session` (voice.py lines 100-213): entitlement gate,
conversation existence/ownership, upstream connect, setup send and first
reply.  The coach-prompt build (lines 130-156) emits nothing client-visible
and changes no state used here, so it contributes no events.  The relay,
transcript-save and usage-accounting phases run only on a `proceed` outcome. -/
def voiceSessionStart (env : StartEnv) : StartResult :=
  let g := entitlementGate env.plan env.trialUsed env.monthlyMinutes
  if g.allowed = false then ⟨g.events, .denied, g.trialUsedAfter⟩
  else if ownerForbidden env then
    ⟨g.events ++ [.sendError "Forbidden", .closeClient], .denied, g.trialUsedAfter⟩
  else
    let convEvents :=
      if env.convExists then [] else [SEvent.createConversation env.uid]
    if env.connectOk = false then
      ⟨g.events ++ convEvents ++ [.connectAttempt,
          .sendError (connectFailMsg env.connectErrName), .closeClient],
        .denied, g.trialUsedAfter⟩
    else
      let pre := g.events ++ convEvents ++ [SEvent.connectAttempt, SEvent.sendSetup]
      match env.firstReply with
      | .timeout =>
          ⟨pre ++ [.sendError setupTimeoutMsg, .closeClient, .closeUpstream],
            .denied, g.trialUsedAfter⟩
      | .connClosed => ⟨pre, .crashed, g.trialUsedAfter⟩
      | .message _ => ⟨pre, .proceed (session_max_minutes env.plan), g.trialUsedAfter⟩

theorem connectFailMsg_ne_forbidden (s : String) : connectFailMsg s ≠ "Forbidden" := by
  intro h
  have hl := congrArg String.length h
  rw [connectFailMsg, String.length_append] at hl
  have h1 : ("Failed to connect to voice service: " : String).length = 36 := by decide
  have h2 : ("Forbidden" : String).length = 9 := by decide
  rw [h1, h2] at hl
  omega

theorem voiceSessionStart_free_used_denied (env : StartEnv)
    (hp : env.plan = "free") (ht : env.trialUsed = true) :
    voiceSessionStart env =
      ⟨[.sendError freeTrialUsedMsg, .closeClient], .denied, true⟩ := by
  simp [voiceSessionStart, entitlementGate, hp, ht]

/-- Claim C1: for a free-plan user, a session is granted only if the trial
flag is unset; the flag is set as the gate's first action, before any
upstream connection attempt or its outcome, so a second attempt by the same
user — whatever the first session's upstream connection did — is denied
with an error frame and a closed connection. -/
theorem claim_C1_free_plan_single_trial (env : StartEnv)
    (hplan : env.plan = "free") :
    (env.trialUsed = true →
        voiceSessionStart env =
          ⟨[.sendError freeTrialUsedMsg, .closeClient], .denied, true⟩) ∧
      (env.trialUsed = false →
        (voiceSessionStart env).trialUsedAfter = true ∧
        (voiceSessionStart env).events.head? = some .markTrialUsed ∧
        ∀ env₂ : StartEnv, env₂.plan = "free" →
          env₂.trialUsed = (voiceSessionStart env).trialUsedAfter →
          voiceSessionStart env₂ =
            ⟨[.sendError freeTrialUsedMsg, .closeClient], .denied, true⟩) := by
  constructor
  · intro ht
    exact voiceSessionStart_free_used_denied env hplan ht
  · intro ht
    have hshape : (voiceSessionStart env).trialUsedAfter = true ∧
        (voiceSessionStart env).events.head? = some .markTrialUsed := by
      obtain ⟨p, tu, mm, ce, co, u, cok, cen, fr⟩ := env
      simp only at hplan ht
      subst hplan; subst ht
      simp only [voiceSessionStart, entitlementGate]
      cases ce <;> cases cok <;> cases fr <;>
        rcases co with _ | o <;>
          simp [ownerForbidden] <;> split <;> simp
    refine ⟨hshape.1, hshape.2, ?_⟩
    intro env₂ hp₂ ht₂
    rw [hshape.1] at ht₂
    exact voiceSessionStart_free_used_denied env₂ hp₂ ht₂

/-- Claim C1 witness: a concrete free user; first attempt (with a failing
upstream connection) burns the trial, second attempt is denied. -/
theorem claim_C1_witness :
    voiceSessionStart
        ⟨"free", true, 0, true, some "u1", "u1", false, "OSError", .timeout⟩ =
      ⟨[.sendError freeTrialUsedMsg, .closeClient], .denied, true⟩ :=
  (claim_C1_free_plan_single_trial
      ⟨"free", true, 0, true, some "u1", "u1", false, "OSError", .timeout⟩
      rfl).1 rfl

/-- Claim C7: a non-free ("pro") session is allowed exactly when the monthly
accumulated minutes are strictly below the 60-minute ceiling, and every
allowed session is granted the fixed 30-minute session maximum no matter how
few monthly minutes remain. -/
theorem claim_C7_pro_monthly_ceiling (env : StartEnv)
    (hplan : env.plan = "pro") :
    VOICE_MONTHLY_MINUTES_LIMIT = 60 ∧
      ((entitlementGate env.plan env.trialUsed env.monthlyMinutes).allowed = true ↔
        env.monthlyMinutes < VOICE_MONTHLY_MINUTES_LIMIT) ∧
      session_max_minutes env.plan = 30 ∧
      (∀ m, (voiceSessionStart env).outcome = .proceed m → m = 30) := by
  have hne : env.plan ≠ "free" := by rw [hplan]; decide
  refine ⟨rfl, ?_, ?_, ?_⟩
  · simp only [entitlementGate, if_neg hne]
    by_cases h : env.monthlyMinutes ≥ VOICE_MONTHLY_MINUTES_LIMIT
    · rw [if_pos h]
      constructor
      · intro hab; exact absurd hab (by simp)
      · intro hlt; exact absurd h (not_le.mpr hlt)
    · rw [if_neg h]
      constructor
      · intro _; exact lt_of_not_ge h
      · intro _; rfl
  · simp [session_max_minutes, hne, VOICE_SESSION_MAX_MINUTES]
  · intro m hm
    have hmax : session_max_minutes env.plan = 30 := by
      simp [session_max_minutes, hne, VOICE_SESSION_MAX_MINUTES]
    simp only [voiceSessionStart] at hm
    repeat' split at hm
    all_goals simp at hm
    all_goals (rw [← hm]; exact hmax)

/-- Claim C7 witness: a pro user with 58 accumulated minutes is allowed and,
with a healthy upstream, proceeds with the 30-minute session cap. -/
theorem claim_C7_witness :
    ((entitlementGate "pro" false 58).allowed = true ↔ (58 : ℚ) < 60) ∧
      (voiceSessionStart
          ⟨"pro", false, 58, true, some "u1", "u1", true, "", .message true⟩
        ).outcome = .proceed 30 := by
  have h := claim_C7_pro_monthly_ceiling
    ⟨"pro", false, 58, true, some "u1", "u1", true, "", .message true⟩ rfl
  refine ⟨by simpa [VOICE_MONTHLY_MINUTES_LIMIT] using h.2.1, ?_⟩
  have : (voiceSessionStart
      ⟨"pro", false, 58, true, some "u1", "u1", true, "", .message true⟩
    ).outcome = .proceed (session_max_minutes "pro") := by decide
  rw [this, h.2.2.1]

theorem gate_allowed_events (plan : String) (tu : Bool) (mm : ℚ)
    (h : (entitlementGate plan tu mm).allowed = true) :
    (entitlementGate plan tu mm).events = [] ∨
      (entitlementGate plan tu mm).events = [.markTrialUsed] := by
  by_cases hp : plan = "free"
  · cases tu
    · right; simp [entitlementGate, hp]
    · exfalso; simp [entitlementGate, hp] at h
  · by_cases hm : VOICE_MONTHLY_MINUTES_LIMIT ≤ mm
    · exfalso; simp [entitlementGate, hp, hm] at h
    · left; simp [entitlementGate, hp, hm]

theorem forbidden_ne_connectFailMsg (s : String) :
    "Forbidden" ≠ connectFailMsg s :=
  fun h => connectFailMsg_ne_forbidden s h.symm

theorem setupTimeoutMsg_ne_forbidden : setupTimeoutMsg ≠ "Forbidden" := by decide

theorem forbidden_ne_setupTimeoutMsg : "Forbidden" ≠ setupTimeoutMsg := by decide

theorem start_no_forbidden_events (env : StartEnv)
    (hallow : (entitlementGate env.plan env.trialUsed env.monthlyMinutes).allowed
      = true)
    (hf : ownerForbidden env = false) :
    SEvent.sendError "Forbidden" ∉ (voiceSessionStart env).events ∧
      SEvent.connectAttempt ∈ (voiceSessionStart env).events := by
  rcases gate_allowed_events env.plan env.trialUsed env.monthlyMinutes hallow
      with hg | hg <;>
    cases hce : env.convExists <;>
      cases hcok : env.connectOk <;>
        cases hfr : env.firstReply <;>
          simp [voiceSessionStart, hallow, hf, hg, hce, hcok, hfr,
            connectFailMsg_ne_forbidden, forbidden_ne_connectFailMsg,
            setupTimeoutMsg_ne_forbidden, forbidden_ne_setupTimeoutMsg]

/-- Claim C10: the ownership check emits the "Forbidden" error exactly when
the conversation exists with a recorded owner different from the
authenticated user; when the conversation exists but the owner lookup
returns null, the session proceeds (on to the upstream connect) as if
authorized. -/
theorem claim_C10_null_owner_proceeds (env : StartEnv)
    (hallow : (entitlementGate env.plan env.trialUsed env.monthlyMinutes).allowed
      = true) :
    (SEvent.sendError "Forbidden" ∈ (voiceSessionStart env).events ↔
        env.convExists = true ∧ ∃ o, env.convOwner = some o ∧ o ≠ env.uid) ∧
      (env.convExists = true → env.convOwner = none →
        SEvent.sendError "Forbidden" ∉ (voiceSessionStart env).events ∧
        SEvent.connectAttempt ∈ (voiceSessionStart env).events) := by
  have hforb_iff : ownerForbidden env = true ↔
      env.convExists = true ∧ ∃ o, env.convOwner = some o ∧ o ≠ env.uid := by
    cases ho : env.convOwner <;> simp [ownerForbidden, ho]
  constructor
  · by_cases hf : ownerForbidden env = true
    · have he : (voiceSessionStart env).events =
          (entitlementGate env.plan env.trialUsed env.monthlyMinutes).events ++
            [.sendError "Forbidden", .closeClient] := by
        simp [voiceSessionStart, hallow, hf]
      rw [he]
      simp only [List.mem_append, List.mem_cons]
      constructor
      · intro _; exact hforb_iff.mp hf
      · intro _; simp
    · have hf' : ownerForbidden env = false := by
        cases h : ownerForbidden env
        · rfl
        · exact absurd h hf
      constructor
      · intro hmem
        exact absurd hmem (start_no_forbidden_events env hallow hf').1
      · intro hx
        exact absurd (hforb_iff.mpr hx) hf
  · intro hce hco
    have hf' : ownerForbidden env = false := by
      simp [ownerForbidden, hco]
    exact start_no_forbidden_events env hallow hf'

/-- Claim C10 witness: a pro user opening an existing conversation whose
owner lookup returns null proceeds to the upstream connect. -/
theorem claim_C10_witness :
    SEvent.sendError "Forbidden" ∉
        (voiceSessionStart
          ⟨"pro", false, 0, true, none, "u1", true, "", .message true⟩).events ∧
      SEvent.connectAttempt ∈
        (voiceSessionStart
          ⟨"pro", false, 0, true, none, "u1", true, "", .message true⟩).events :=
  (claim_C10_null_owner_proceeds
      ⟨"pro", false, 0, true, none, "u1", true, "", .message true⟩
      (by decide)).2 rfl rfl

/-- Claim C8 counterexample environment: the entitlement and ownership
checks pass, the upstream connection opens, and then the upstream closes the
connection during the 10-second wait for the first reply, so
`gemini_ws.recv()` raises `ConnectionClosed` — which voice.py line 208
(`except asyncio.TimeoutError`) does not catch. -/
def c8Env : StartEnv := ⟨"pro", false, 0, true, some "u1", "u1", true, "", .connClosed⟩

/-- Claim C8 counterexample: on a connection failure during the setup wait
the claim requires exactly one error frame and a closed client connection,
but the uncaught exception propagates: the handler sends no error frame at
all and never reaches its close calls. -/
theorem claim_C8_counterexample :
    (voiceSessionStart c8Env).events.countP isSendError = 0 ∧
      (voiceSessionStart c8Env).outcome = .crashed ∧
      SEvent.closeClient ∉ (voiceSessionStart c8Env).events ∧
      ¬ ((voiceSessionStart c8Env).events.countP isSendError = 1) := by
  exact ⟨by decide, by decide, by decide, by decide⟩

/-- Claim C8 (amended): after the gate and ownership checks pass, the setup
handshake waits a bounded 10 seconds for the first reply; a first message
with a setup-acknowledgement key proceeds, and any other message shape also
proceeds (logged only).  A failure when opening the upstream connection, or
a timeout during the wait, is terminal with exactly one error frame and a
graceful close (timeout also closes the upstream socket).  An upstream
connection closure during the wait instead propagates as an uncaught
exception: no error frame is sent.  In every case no second connection
attempt is made, and only a `proceed` outcome reaches the relay and
persistence phase, so a session that never passes the handshake persists no
messages. -/
theorem claim_C8_setup_handshake (env : StartEnv)
    (hallow : (entitlementGate env.plan env.trialUsed env.monthlyMinutes).allowed
      = true)
    (hf : ownerForbidden env = false) :
    SETUP_TIMEOUT_SECONDS = 10 ∧
      (env.connectOk = false →
        (voiceSessionStart env).events.countP isSendError = 1 ∧
        SEvent.sendError (connectFailMsg env.connectErrName) ∈
          (voiceSessionStart env).events ∧
        SEvent.closeClient ∈ (voiceSessionStart env).events ∧
        (voiceSessionStart env).outcome = .denied) ∧
      (env.connectOk = true → env.firstReply = .timeout →
        (voiceSessionStart env).events.countP isSendError = 1 ∧
        SEvent.sendError setupTimeoutMsg ∈ (voiceSessionStart env).events ∧
        SEvent.closeClient ∈ (voiceSessionStart env).events ∧
        SEvent.closeUpstream ∈ (voiceSessionStart env).events ∧
        (voiceSessionStart env).outcome = .denied) ∧
      (∀ b, env.connectOk = true → env.firstReply = .message b →
        (voiceSessionStart env).outcome = .proceed (session_max_minutes env.plan) ∧
        (voiceSessionStart env).events.countP isSendError = 0) ∧
      (env.connectOk = true → env.firstReply = .connClosed →
        (voiceSessionStart env).outcome = .crashed ∧
        (voiceSessionStart env).events.countP isSendError = 0) ∧
      (voiceSessionStart env).events.countP (fun e => e == SEvent.connectAttempt)
        ≤ 1 := by
  rcases gate_allowed_events env.plan env.trialUsed env.monthlyMinutes hallow
    with hg | hg <;>
  · refine ⟨rfl, ?_, ?_, ?_, ?_, ?_⟩
    · intro hcok
      cases hce : env.convExists <;>
        simp [voiceSessionStart, hallow, hf, hg, hce, hcok, isSendError]
    · intro hcok hfr
      cases hce : env.convExists <;>
        simp [voiceSessionStart, hallow, hf, hg, hce, hcok, hfr, isSendError]
    · intro b hcok hfr
      cases hce : env.convExists <;>
        simp [voiceSessionStart, hallow, hf, hg, hce, hcok, hfr, isSendError]
    · intro hcok hfr
      cases hce : env.convExists <;>
        simp [voiceSessionStart, hallow, hf, hg, hce, hcok, hfr, isSendError]
    · cases hce : env.convExists <;>
        cases hcok : env.connectOk <;>
          cases hfr : env.firstReply <;>
            simp [voiceSessionStart, hallow, hf, hg, hce, hcok, hfr]

/-- Claim C8 witness: concrete timeout run — the entitled user's handshake
times out, one error frame, both sockets closed, session denied. -/
theorem claim_C8_witness :
    (voiceSessionStart
        ⟨"pro", false, 0, false, none, "u1", true, "", .timeout⟩).events.countP
        isSendError = 1 ∧
      SEvent.sendError setupTimeoutMsg ∈
        (voiceSessionStart
          ⟨"pro", false, 0, false, none, "u1", true, "", .timeout⟩).events ∧
      SEvent.closeClient ∈
        (voiceSessionStart
          ⟨"pro", false, 0, false, none, "u1", true, "", .timeout⟩).events ∧
      SEvent.closeUpstream ∈
        (voiceSessionStart
          ⟨"pro", false, 0, false, none, "u1", true, "", .timeout⟩).events ∧
      (voiceSessionStart
          ⟨"pro", false, 0, false, none, "u1", true, "", .timeout⟩).outcome
        = .denied :=
  (claim_C8_setup_handshake
      ⟨"pro", false, 0, false, none, "u1", true, "", .timeout⟩
      (by decide) (by decide)).2.2.1 rfl rfl

/-! ## The upstream-to-client pump (voice.py lines 254-349)

`gemini_to_client` reads upstream messages, forwards audio / transcripts /
turn-complete to the client, collects transcript fragments, and runs the
time-limit check and remaining-time warnings on every message. -/

/-- Frames sent to the client over the downstream socket by this pump. -/
inductive Frame
  | audio (data : String)
  | transcript (role : String) (text : String)
  | turnComplete
  | error (message : String)
deriving DecidableEq

def isErrorFrame : Frame → Bool
  | .error _ => true
  | _ => false

def freeLimitMsg : String :=
  "Free voice session complete (5 minutes). Upgrade to Pro for unlimited sessions."

def proLimitMsg : String := "Session time limit reached (30 minutes)."

def freeWarnText : String := "[1 minute remaining in your free session]"

def proWarnText : String := "[5 minutes remaining in session]"

/-- `server_content["..."].get("text", "")` for a transcription object that
may lack its "text" field. -/
def transcriptionText : Option String → String
  | some t => t
  | none => ""

/-- The fields of one upstream message that `gemini_to_client` reads, plus
the wall-clock time at which it is processed.  For the transcription fields,
`none` = key absent, `some none` = key present without "text",
`some (some t)` = text `t`.  `modelTurnParts`: `none` = no "modelTurn" key;
per part, `some data` when the part carries "inlineData". -/
structure UpMsg where
  time : ℚ
  modelTurnParts : Option (List (Option String))
  inputTranscription : Option (Option String)
  outputTranscription : Option (Option String)
  turnComplete : Bool
deriving DecidableEq

/-- State shared by the pump iterations: collected `transcript_turns`, the
frames sent to the client so far (in order), and the shared active flag. -/
structure RelayState where
  transcript_turns : List (String × String)
  frames : List Frame
  session_active : Bool
deriving DecidableEq

/-- Lines 272-283: forward each part's inlineData as an audio frame. -/
def stepAudio (st : RelayState) (m : UpMsg) : RelayState :=
  match m.modelTurnParts with
  | some parts =>
      { st with frames := st.frames ++ (parts.filterMap id).map Frame.audio }
  | none => st

/-- Lines 286-294: a present inputTranscription with truthy text is appended
to the transcript sequence and forwarded. -/
def stepInputTranscription (st : RelayState) (m : UpMsg) : RelayState :=
  match m.inputTranscription with
  | some tr =>
      let text := transcriptionText tr
      if text ≠ "" then
        { st with
          transcript_turns := st.transcript_turns ++ [("user", text)],
          frames := st.frames ++ [Frame.transcript "user" text] }
      else st
  | none => st

/-- Lines 296-304: same for outputTranscription, with role assistant. -/
def stepOutputTranscription (st : RelayState) (m : UpMsg) : RelayState :=
  match m.outputTranscription with
  | some tr =>
      let text := transcriptionText tr
      if text ≠ "" then
        { st with
          transcript_turns := st.transcript_turns ++ [("assistant", text)],
          frames := st.frames ++ [Frame.transcript "assistant" text] }
      else st
  | none => st

/-- Lines 307-311: forward the turn-complete signal. -/
def stepTurnComplete (st : RelayState) (m : UpMsg) : RelayState :=
  if m.turnComplete then
    { st with frames := st.frames ++ [Frame.turnComplete] }
  else st

/-- Lines 313-340: the time-limit check and, when the limit is not reached,
the remaining-time warnings. -/
def stepTimeCheck (plan : String) (session_start session_max_minutes : ℚ)
    (st : RelayState) (m : UpMsg) : RelayState :=
  let elapsed := (m.time - session_start) / 60
  if elapsed ≥ session_max_minutes then
    { st with
      frames := st.frames ++
        [Frame.error (if plan = "free" then freeLimitMsg else proLimitMsg)],
      session_active := false }
  else
    let remaining := session_max_minutes - elapsed
    if plan = "free" ∧ (0.9 : ℚ) ≤ remaining ∧ remaining ≤ (1.1 : ℚ) then
      { st with frames := st.frames ++ [Frame.transcript "assistant" freeWarnText] }
    else if plan = "pro" ∧ (4.9 : ℚ) ≤ remaining ∧ remaining ≤ (5.1 : ℚ) then
      { st with frames := st.frames ++ [Frame.transcript "assistant" proWarnText] }
    else st

/-- One iteration of the `async for` loop body (voice.py lines 262-340),
in program order. -/
def processMsg (plan : String) (session_start session_max_minutes : ℚ)
    (st : RelayState) (m : UpMsg) : RelayState :=
  stepTimeCheck plan session_start session_max_minutes
    (stepTurnComplete
      (stepOutputTranscription
        (stepInputTranscription (stepAudio st m) m) m) m) m

/-- The `async for msg in gemini_ws` loop (lines 259-340): each arriving
message is dropped once the shared flag is false (lines 260-261, and the
`break` at line 325 after the limit fires). -/
def gemini_to_client (plan : String) (session_start session_max_minutes : ℚ) :
    RelayState → List UpMsg → RelayState
  | st, [] => st
  | st, m :: rest =>
    if st.session_active then
      gemini_to_client plan session_start session_max_minutes
        (processMsg plan session_start session_max_minutes st m) rest
    else st

/-- The text `gemini_to_client` reads for the input transcription:
`""` when the key or its "text" field is absent. -/
def msgInputText (m : UpMsg) : String :=
  match m.inputTranscription with
  | some tr => transcriptionText tr
  | none => ""

/-- Same for the output transcription. -/
def msgOutputText (m : UpMsg) : String :=
  match m.outputTranscription with
  | some tr => transcriptionText tr
  | none => ""

/-- A frame that, if it is a transcript frame, carries non-empty text. -/
def tFrameOk (f : Frame) : Prop :=
  ∀ r t, f = Frame.transcript r t → t ≠ ""

theorem stepAudio_shape (st : RelayState) (m : UpMsg) :
    ∃ Δf, stepAudio st m =
        ⟨st.transcript_turns, st.frames ++ Δf, st.session_active⟩ ∧
      (∀ f ∈ Δf, tFrameOk f) ∧ Δf.countP isErrorFrame = 0 := by
  cases h : m.modelTurnParts with
  | none => exact ⟨[], by simp [stepAudio, h], by simp, by simp⟩
  | some parts =>
    refine ⟨(parts.filterMap id).map Frame.audio, by simp [stepAudio, h], ?_, ?_⟩
    · intro f hf
      simp only [List.mem_map] at hf
      obtain ⟨d, _, rfl⟩ := hf
      exact fun r t h => Frame.noConfusion h
    · rw [List.countP_eq_zero]
      intro f hf
      simp only [List.mem_map] at hf
      obtain ⟨d, _, rfl⟩ := hf
      simp [isErrorFrame]

theorem stepInputTranscription_shape (st : RelayState) (m : UpMsg) :
    ∃ Δt Δf, stepInputTranscription st m =
        ⟨st.transcript_turns ++ Δt, st.frames ++ Δf, st.session_active⟩ ∧
      (∀ x ∈ Δt, (x : String × String).2 ≠ "") ∧
      (∀ f ∈ Δf, tFrameOk f) ∧ Δf.countP isErrorFrame = 0 ∧
      (msgInputText m = "" → Δt = []) := by
  cases h : m.inputTranscription with
  | none =>
    exact ⟨[], [], by simp [stepInputTranscription, h], by simp, by simp,
      by simp, fun _ => rfl⟩
  | some tr =>
    by_cases ht : transcriptionText tr = ""
    · refine ⟨[], [], ?_, by simp, by simp, by simp, fun _ => rfl⟩
      simp [stepInputTranscription, h, ht]
    · refine ⟨[("user", transcriptionText tr)],
        [Frame.transcript "user" (transcriptionText tr)], ?_, ?_, ?_, ?_, ?_⟩
      · simp [stepInputTranscription, h, ht]
      · intro x hx; simp only [List.mem_singleton] at hx; rw [hx]; exact ht
      · intro f hf; simp only [List.mem_singleton] at hf; rw [hf]
        intro r t hrt
        injection hrt with h1 h2
        rw [← h2]; exact ht
      · simp [isErrorFrame]
      · intro hempty
        exact absurd (by simpa [msgInputText, h] using hempty) ht

theorem stepOutputTranscription_shape (st : RelayState) (m : UpMsg) :
    ∃ Δt Δf, stepOutputTranscription st m =
        ⟨st.transcript_turns ++ Δt, st.frames ++ Δf, st.session_active⟩ ∧
      (∀ x ∈ Δt, (x : String × String).2 ≠ "") ∧
      (∀ f ∈ Δf, tFrameOk f) ∧ Δf.countP isErrorFrame = 0 ∧
      (msgOutputText m = "" → Δt = []) := by
  cases h : m.outputTranscription with
  | none =>
    exact ⟨[], [], by simp [stepOutputTranscription, h], by simp, by simp,
      by simp, fun _ => rfl⟩
  | some tr =>
    by_cases ht : transcriptionText tr = ""
    · refine ⟨[], [], ?_, by simp, by simp, by simp, fun _ => rfl⟩
      simp [stepOutputTranscription, h, ht]
    · refine ⟨[("assistant", transcriptionText tr)],
        [Frame.transcript "assistant" (transcriptionText tr)], ?_, ?_, ?_, ?_, ?_⟩
      · simp [stepOutputTranscription, h, ht]
      · intro x hx; simp only [List.mem_singleton] at hx; rw [hx]; exact ht
      · intro f hf; simp only [List.mem_singleton] at hf; rw [hf]
        intro r t hrt
        injection hrt with h1 h2
        rw [← h2]; exact ht
      · simp [isErrorFrame]
      · intro hempty
        exact absurd (by simpa [msgOutputText, h] using hempty) ht

theorem stepTurnComplete_shape (st : RelayState) (m : UpMsg) :
    ∃ Δf, stepTurnComplete st m =
        ⟨st.transcript_turns, st.frames ++ Δf, st.session_active⟩ ∧
      (∀ f ∈ Δf, tFrameOk f) ∧ Δf.countP isErrorFrame = 0 := by
  by_cases h : m.turnComplete
  · refine ⟨[Frame.turnComplete], by simp [stepTurnComplete, h], ?_, by simp [isErrorFrame]⟩
    intro f hf; simp only [List.mem_singleton] at hf; rw [hf]
    exact fun r t hrt => Frame.noConfusion hrt
  · exact ⟨[], by simp [stepTurnComplete, h], by simp, by simp⟩

theorem stepTimeCheck_shape (plan : String) (s maxMin : ℚ) (st : RelayState)
    (m : UpMsg) :
    (maxMin ≤ (m.time - s) / 60 →
        stepTimeCheck plan s maxMin st m =
          ⟨st.transcript_turns,
            st.frames ++
              [Frame.error (if plan = "free" then freeLimitMsg else proLimitMsg)],
            false⟩) ∧
      (¬ maxMin ≤ (m.time - s) / 60 →
        ∃ Δf, stepTimeCheck plan s maxMin st m =
            ⟨st.transcript_turns, st.frames ++ Δf, st.session_active⟩ ∧
          (∀ f ∈ Δf, tFrameOk f) ∧ Δf.countP isErrorFrame = 0) := by
  constructor
  · intro h
    simp [stepTimeCheck, ge_iff_le, h]
  · intro h
    rw [stepTimeCheck]
    rw [if_neg (by simpa [ge_iff_le] using h)]
    dsimp only
    split_ifs with h1 h2
    · refine ⟨[Frame.transcript "assistant" freeWarnText],
        by simp, ?_, by simp [isErrorFrame]⟩
      intro f hf; simp only [List.mem_singleton] at hf; rw [hf]
      intro r t hrt
      injection hrt with h1 h2
      rw [← h2]; decide
    · refine ⟨[Frame.transcript "assistant" proWarnText],
        by simp, ?_, by simp [isErrorFrame]⟩
      intro f hf; simp only [List.mem_singleton] at hf; rw [hf]
      intro r t hrt
      injection hrt with h1 h2
      rw [← h2]; decide
    · exact ⟨[], by simp, by simp, by simp⟩

theorem processMsg_shape (plan : String) (s maxMin : ℚ) (st : RelayState)
    (m : UpMsg) :
    ∃ Δt Δf act,
      processMsg plan s maxMin st m =
        ⟨st.transcript_turns ++ Δt, st.frames ++ Δf, act⟩ ∧
      (∀ x ∈ Δt, (x : String × String).2 ≠ "") ∧
      (∀ f ∈ Δf, tFrameOk f) ∧
      (msgInputText m = "" → msgOutputText m = "" → Δt = []) ∧
      (if maxMin ≤ (m.time - s) / 60 then
          Δf.countP isErrorFrame = 1 ∧ act = false ∧
          Frame.error (if plan = "free" then freeLimitMsg else proLimitMsg) ∈ Δf
        else Δf.countP isErrorFrame = 0 ∧ act = st.session_active) := by
  obtain ⟨Δ0, h0, h0t, h0c⟩ := stepAudio_shape st m
  obtain ⟨Δti, Δfi, h1, h1t, h1f, h1c, h1e⟩ :=
    stepInputTranscription_shape (stepAudio st m) m
  obtain ⟨Δto, Δfo, h2, h2t, h2f, h2c, h2e⟩ :=
    stepOutputTranscription_shape
      (stepInputTranscription (stepAudio st m) m) m
  obtain ⟨Δtc, h3, h3f, h3c⟩ :=
    stepTurnComplete_shape
      (stepOutputTranscription (stepInputTranscription (stepAudio st m) m) m) m
  by_cases hlim : maxMin ≤ (m.time - s) / 60
  · have h4 := (stepTimeCheck_shape plan s maxMin
      (stepTurnComplete
        (stepOutputTranscription
          (stepInputTranscription (stepAudio st m) m) m) m) m).1 hlim
    refine ⟨Δti ++ Δto,
      Δ0 ++ Δfi ++ Δfo ++ Δtc ++
        [Frame.error (if plan = "free" then freeLimitMsg else proLimitMsg)],
      false, ?_, ?_, ?_, ?_, ?_⟩
    · simp only [processMsg]
      rw [h4, h3, h2, h1, h0]
      simp [List.append_assoc]
    · intro x hx
      rcases List.mem_append.mp hx with h | h
      · exact h1t x h
      · exact h2t x h
    · intro f hf
      simp only [List.append_assoc, List.mem_append, List.mem_singleton] at hf
      rcases hf with h | h | h | h | h
      · exact h0t f h
      · exact h1f f h
      · exact h2f f h
      · exact h3f f h
      · rw [h]; exact fun r t hrt => Frame.noConfusion hrt
    · intro hie hoe
      rw [h1e hie, h2e hoe]
      rfl
    · rw [if_pos hlim]
      refine ⟨?_, rfl, by simp⟩
      simp [List.countP_append, h0c, h1c, h2c, h3c, isErrorFrame]
  · obtain ⟨Δcheck, h4, h4f, h4c⟩ := (stepTimeCheck_shape plan s maxMin
      (stepTurnComplete
        (stepOutputTranscription
          (stepInputTranscription (stepAudio st m) m) m) m) m).2 hlim
    refine ⟨Δti ++ Δto, Δ0 ++ Δfi ++ Δfo ++ Δtc ++ Δcheck,
      st.session_active, ?_, ?_, ?_, ?_, ?_⟩
    · simp only [processMsg]
      rw [h4, h3, h2, h1, h0]
      simp [List.append_assoc]
    · intro x hx
      rcases List.mem_append.mp hx with h | h
      · exact h1t x h
      · exact h2t x h
    · intro f hf
      simp only [List.append_assoc, List.mem_append] at hf
      rcases hf with h | h | h | h | h
      · exact h0t f h
      · exact h1f f h
      · exact h2f f h
      · exact h3f f h
      · exact h4f f h
    · intro hie hoe
      rw [h1e hie, h2e hoe]
      rfl
    · rw [if_neg hlim]
      refine ⟨?_, rfl⟩
      simp [List.countP_append, h0c, h1c, h2c, h3c, h4c]

theorem gemini_to_client_inactive (plan : String) (s maxMin : ℚ)
    (st : RelayState) (msgs : List UpMsg) (h : st.session_active = false) :
    gemini_to_client plan s maxMin st msgs = st := by
  cases msgs with
  | nil => rfl
  | cons m rest => simp [gemini_to_client, h]

/-- Main run lemma for the pump: starting from an active state, either no
message reached the time limit (the pump stays active and adds no error
frame), or the first message at or past the limit ends the run with exactly
one more error frame, the plan-dependent wording, and every later message
unprocessed. -/
theorem gemini_to_client_run (plan : String) (s maxMin : ℚ)
    (msgs : List UpMsg) :
    ∀ st : RelayState, st.session_active = true →
      ((gemini_to_client plan s maxMin st msgs).session_active = true ∧
        (gemini_to_client plan s maxMin st msgs).frames.countP isErrorFrame =
          st.frames.countP isErrorFrame ∧
        (∀ m ∈ msgs, (m.time - s) / 60 < maxMin)) ∨
      ((gemini_to_client plan s maxMin st msgs).session_active = false ∧
        (gemini_to_client plan s maxMin st msgs).frames.countP isErrorFrame =
          st.frames.countP isErrorFrame + 1 ∧
        Frame.error (if plan = "free" then freeLimitMsg else proLimitMsg) ∈
          (gemini_to_client plan s maxMin st msgs).frames ∧
        ∃ pre mm post, msgs = pre ++ mm :: post ∧
          (∀ p ∈ pre, (p.time - s) / 60 < maxMin) ∧
          maxMin ≤ (mm.time - s) / 60 ∧
          gemini_to_client plan s maxMin st msgs =
            gemini_to_client plan s maxMin st (pre ++ [mm])) := by
  induction msgs with
  | nil =>
    intro st h
    left
    exact ⟨h, rfl, by simp⟩
  | cons m rest ih =>
    intro st h
    obtain ⟨Δt, Δf, act, hs, _, _, _, hif⟩ := processMsg_shape plan s maxMin st m
    have hrun : gemini_to_client plan s maxMin st (m :: rest) =
        gemini_to_client plan s maxMin (processMsg plan s maxMin st m) rest := by
      simp [gemini_to_client, h]
    by_cases hlim : maxMin ≤ (m.time - s) / 60
    · rw [if_pos hlim] at hif
      obtain ⟨hc1, hact, hmem⟩ := hif
      have hinact : (processMsg plan s maxMin st m).session_active = false := by
        rw [hs]; exact hact
      have hstop : gemini_to_client plan s maxMin
          (processMsg plan s maxMin st m) rest = processMsg plan s maxMin st m :=
        gemini_to_client_inactive plan s maxMin _ rest hinact
      rw [hrun, hstop]
      right
      refine ⟨hinact, ?_, ?_, [], m, rest, rfl, by simp, hlim, ?_⟩
      · rw [hs]
        simp [List.countP_append, hc1]
      · rw [hs]
        simp only [List.mem_append]
        right
        exact hmem
      · have : gemini_to_client plan s maxMin st ([] ++ [m]) =
            processMsg plan s maxMin st m := by
          simp [gemini_to_client, h]
        rw [this]
    · rw [if_neg hlim] at hif
      obtain ⟨hc0, hact⟩ := hif
      have hact' : (processMsg plan s maxMin st m).session_active = true := by
        rw [hs]; rw [hact]; exact h
      have hcnt' : (processMsg plan s maxMin st m).frames.countP isErrorFrame =
          st.frames.countP isErrorFrame := by
        rw [hs]; simp [List.countP_append, hc0]
      rcases ih (processMsg plan s maxMin st m) hact' with
        ⟨ha, hcnt, hall⟩ | ⟨ha, hcnt, hmem, pre, mm, post, hdec, hpre, hmm, hr⟩
      · left
        rw [hrun]
        refine ⟨ha, by rw [hcnt, hcnt'], ?_⟩
        intro m' hm'
        rcases List.mem_cons.mp hm' with h' | h'
        · rw [h']; exact lt_of_not_ge hlim
        · exact hall m' h'
      · right
        rw [hrun]
        refine ⟨ha, by rw [hcnt, hcnt'], hmem, m :: pre, mm, post,
          by rw [hdec]; rfl, ?_, hmm, ?_⟩
        · intro p hp
          rcases List.mem_cons.mp hp with h' | h'
          · rw [h']; exact lt_of_not_ge hlim
          · exact hpre p h'
        · have : gemini_to_client plan s maxMin st ((m :: pre) ++ [mm]) =
              gemini_to_client plan s maxMin (processMsg plan s maxMin st m)
                (pre ++ [mm]) := by
            simp [gemini_to_client, h]
          rw [this, hr]

/-- Transcript invariant of the pump: starting from a state whose collected
fragments and transcript frames all carry non-empty text, the property is
preserved. -/
theorem gemini_to_client_transcript (plan : String) (s maxMin : ℚ)
    (msgs : List UpMsg) :
    ∀ st : RelayState,
      (∀ x ∈ st.transcript_turns, (x : String × String).2 ≠ "") →
      (∀ f ∈ st.frames, tFrameOk f) →
      (∀ x ∈ (gemini_to_client plan s maxMin st msgs).transcript_turns,
          (x : String × String).2 ≠ "") ∧
      (∀ f ∈ (gemini_to_client plan s maxMin st msgs).frames, tFrameOk f) := by
  induction msgs with
  | nil => intro st ht hf; exact ⟨ht, hf⟩
  | cons m rest ih =>
    intro st ht hf
    cases hact : st.session_active with
    | false =>
      rw [gemini_to_client_inactive plan s maxMin st (m :: rest) hact]
      exact ⟨ht, hf⟩
    | true =>
      have hrun : gemini_to_client plan s maxMin st (m :: rest) =
          gemini_to_client plan s maxMin (processMsg plan s maxMin st m) rest := by
        simp [gemini_to_client, hact]
      rw [hrun]
      obtain ⟨Δt, Δf, act, hs, hΔt, hΔf, _, _⟩ :=
        processMsg_shape plan s maxMin st m
      refine ih (processMsg plan s maxMin st m) ?_ ?_
      · rw [hs]
        intro x hx
        rcases List.mem_append.mp hx with h' | h'
        · exact ht x h'
        · exact hΔt x h'
      · rw [hs]
        intro f hf'
        rcases List.mem_append.mp hf' with h' | h'
        · exact hf f h'
        · exact hΔf f h'

/-- Claim C2: the time-limit check runs on every upstream message at its
receipt time; at the first message whose elapsed minutes reach the session
cap the pump sends exactly one terminal error frame with the plan-dependent
wording, clears the shared active flag, and processes no further message.
When the first message arrives within δ seconds of session start and
consecutive messages are at most δ seconds apart, the elapsed time at the
terminating message exceeds the cap by at most δ/60 minutes — one
message-processing interval. -/
theorem claim_C2_time_limit_on_every_message (plan : String)
    (s maxMin δ : ℚ) (msgs : List UpMsg)
    (hmax : 0 ≤ maxMin)
    (hfirst : ∀ m, msgs.head? = some m → m.time ≤ s + δ)
    (hchain : msgs.Chain' (fun a b => a.time ≤ b.time ∧ b.time ≤ a.time + δ)) :
    ((gemini_to_client plan s maxMin ⟨[], [], true⟩ msgs).session_active = true →
        (gemini_to_client plan s maxMin ⟨[], [], true⟩ msgs).frames.countP
            isErrorFrame = 0 ∧
        ∀ m ∈ msgs, (m.time - s) / 60 < maxMin) ∧
      ((gemini_to_client plan s maxMin ⟨[], [], true⟩ msgs).session_active
          = false →
        (gemini_to_client plan s maxMin ⟨[], [], true⟩ msgs).frames.countP
            isErrorFrame = 1 ∧
        Frame.error (if plan = "free" then freeLimitMsg else proLimitMsg) ∈
          (gemini_to_client plan s maxMin ⟨[], [], true⟩ msgs).frames ∧
        ∃ pre mm post, msgs = pre ++ mm :: post ∧
          (∀ p ∈ pre, (p.time - s) / 60 < maxMin) ∧
          maxMin ≤ (mm.time - s) / 60 ∧
          (mm.time - s) / 60 ≤ maxMin + δ / 60 ∧
          gemini_to_client plan s maxMin ⟨[], [], true⟩ msgs =
            gemini_to_client plan s maxMin ⟨[], [], true⟩ (pre ++ [mm])) := by
  have hrun := gemini_to_client_run plan s maxMin msgs ⟨[], [], true⟩ rfl
  constructor
  · intro hactive
    rcases hrun with ⟨_, hc, hall⟩ | ⟨ha, _⟩
    · exact ⟨by simpa using hc, hall⟩
    · rw [hactive] at ha; cases ha
  · intro hinactive
    rcases hrun with ⟨ha, _, _⟩ |
      ⟨_, hc, hmem, pre, mm, post, hdec, hpre, hmm, hstop⟩
    · rw [hinactive] at ha; cases ha
    · refine ⟨by simpa using hc, hmem, pre, mm, post, hdec, hpre, hmm, ?_, hstop⟩
      rcases List.eq_nil_or_concat pre with rfl | ⟨pre', q, rfl⟩
      · have hh : msgs.head? = some mm := by rw [hdec]; rfl
        have h1 := hfirst mm hh
        linarith
      · have hq : (q.time - s) / 60 < maxMin := hpre q (by simp)
        have hadj : mm.time ≤ q.time + δ := by
          rw [hdec] at hchain
          obtain ⟨_, _, hlink⟩ := List.chain'_append.mp hchain
          exact (hlink q (by simp) mm rfl).2
        linarith

/-- Claim C2 witness: a single pro-plan message one second into the session
stays below the cap — the pump remains active with no error frame. -/
theorem claim_C2_witness :
    (gemini_to_client "pro" 0 30 ⟨[], [], true⟩
        [⟨1, none, none, none, false⟩]).frames.countP isErrorFrame = 0 ∧
      ∀ m ∈ [(⟨1, none, none, none, false⟩ : UpMsg)], (m.time - 0) / 60 < 30 :=
  (claim_C2_time_limit_on_every_message "pro" 0 30 1
      [⟨1, none, none, none, false⟩] (by norm_num)
      (by intro m hm; simp at hm; subst hm; norm_num)
      (by simp)).1
    (by norm_num [gemini_to_client, processMsg, stepAudio,
      stepInputTranscription, stepOutputTranscription, stepTurnComplete,
      stepTimeCheck, transcriptionText])

/-- Claim C9: every fragment the pump appends to the transcript sequence has
non-empty text, every transcript frame it forwards to the client has
non-empty text, and a message whose transcriptions have empty or absent text
leaves the transcript sequence unchanged. -/
theorem claim_C9_no_empty_fragments (plan : String) (s maxMin : ℚ)
    (msgs : List UpMsg) :
    (∀ x ∈ (gemini_to_client plan s maxMin ⟨[], [], true⟩ msgs).transcript_turns,
        (x : String × String).2 ≠ "") ∧
      (∀ r t, Frame.transcript r t ∈
          (gemini_to_client plan s maxMin ⟨[], [], true⟩ msgs).frames →
          t ≠ "") ∧
      (∀ st : RelayState, ∀ m : UpMsg,
        msgInputText m = "" → msgOutputText m = "" →
        (processMsg plan s maxMin st m).transcript_turns =
          st.transcript_turns) := by
  have h := gemini_to_client_transcript plan s maxMin msgs ⟨[], [], true⟩
    (by simp) (by simp)
  refine ⟨h.1, ?_, ?_⟩
  · intro r t hmem
    exact h.2 _ hmem r t rfl
  · intro st m hie hoe
    obtain ⟨Δt, Δf, act, hs, _, _, hempty, _⟩ :=
      processMsg_shape plan s maxMin st m
    rw [hs]
    simp [hempty hie hoe]

/-- Claim C9 witness: a concrete collected fragment has non-empty text, and
a concrete message with an empty input transcription and a text-less output
transcription appends nothing. -/
theorem claim_C9_witness :
    ((("user", "hi") : String × String).2 ≠ "") ∧
      (processMsg "pro" 0 30 ⟨[], [], true⟩
          ⟨1, none, some (some ""), some none, false⟩).transcript_turns =
        (⟨[], [], true⟩ : RelayState).transcript_turns :=
  ⟨(claim_C9_no_empty_fragments "pro" 0 30
        [⟨1, none, some (some "hi"), none, false⟩]).1 ("user", "hi")
      (by norm_num [gemini_to_client, processMsg, stepAudio,
        stepInputTranscription, stepOutputTranscription, stepTurnComplete,
        stepTimeCheck, transcriptionText, show ("hi" : String) ≠ "" by decide]),
    (claim_C9_no_empty_fragments "pro" 0 30 []).2.2 ⟨[], [], true⟩
      ⟨1, none, some (some ""), some none, false⟩ rfl rfl⟩

end Mira
